import Mathlib

/-!
Verification of the rs-merkletree library (src/src/lib.rs) against its
specification. The Rust code is shallowly embedded: byte sequences are
`List Nat`, `Option` models `Option`/panics, and the `build_tree` while
loop is given an explicit fuel parameter so that its (non-)termination
can be stated and proved.

The SHA-256 implementation models the `crypto` crate's `Sha256` together
with `result_str()` (lowercase hexadecimal text): every hash stored in a
node is the hex-text encoding of a SHA-256 digest, exactly as in
`MerkleTree::hasher_leaf` and `MerkleTree::hasher_nodes`.
-/

set_option maxRecDepth 40000

/-- Truncate a natural number to 32 bits. -/
def w32 (x : Nat) : Nat := x &&& 0xffffffff

/-- Rotate a 32-bit word right by `n`. -/
def rotr32 (n x : Nat) : Nat := w32 ((x >>> n) ||| (x <<< (32 - n)))

/-- SHA-256 message-schedule sigma-0. -/
def smallSigma0 (x : Nat) : Nat := rotr32 7 x ^^^ rotr32 18 x ^^^ (x >>> 3)

/-- SHA-256 message-schedule sigma-1. -/
def smallSigma1 (x : Nat) : Nat := rotr32 17 x ^^^ rotr32 19 x ^^^ (x >>> 10)

/-- SHA-256 compression Sigma-0. -/
def bigSigma0 (x : Nat) : Nat := rotr32 2 x ^^^ rotr32 13 x ^^^ rotr32 22 x

/-- SHA-256 compression Sigma-1. -/
def bigSigma1 (x : Nat) : Nat := rotr32 6 x ^^^ rotr32 11 x ^^^ rotr32 25 x

/-- SHA-256 choice function. -/
def chooseF (x y z : Nat) : Nat := (x &&& y) ^^^ ((x ^^^ 0xffffffff) &&& z)

/-- SHA-256 majority function. -/
def majF (x y z : Nat) : Nat := (x &&& y) ^^^ (x &&& z) ^^^ (y &&& z)

/-- SHA-256 round constants. -/
def K256 : List Nat :=
  [1116352408, 1899447441, 3049323471, 3921009573, 961987163, 1508970993,
   2453635748, 2870763221, 3624381080, 310598401, 607225278, 1426881987,
   1925078388, 2162078206, 2614888103, 3248222580, 3835390401, 4022224774,
   264347078, 604807628, 770255983, 1249150122, 1555081692, 1996064986,
   2554220882, 2821834349, 2952996808, 3210313671, 3336571891, 3584528711,
   113926993, 338241895, 666307205, 773529912, 1294757372, 1396182291,
   1695183700, 1986661051, 2177026350, 2456956037, 2730485921, 2820302411,
   3259730800, 3345764771, 3516065817, 3600352804, 4094571909, 275423344,
   430227734, 506948616, 659060556, 883997877, 958139571, 1322822218,
   1537002063, 1747873779, 1955562222, 2024104815, 2227730452, 2361852424,
   2428436474, 2756734187, 3204031479, 3329325298]

/-- SHA-256 initial hash state. -/
def sha256InitHash : List Nat :=
  [1779033703, 3144134277, 1013904242, 2773480762, 1359893119,
   2600822924, 528734635, 1541459225]

/-- Big-endian 4-byte encoding of a 32-bit word. -/
def be32 (n : Nat) : List Nat := [(n >>> 24) &&& 255, (n >>> 16) &&& 255, (n >>> 8) &&& 255, n &&& 255]

/-- Big-endian 8-byte encoding of a 64-bit word. -/
def be64 (n : Nat) : List Nat :=
  [(n >>> 56) &&& 255, (n >>> 48) &&& 255, (n >>> 40) &&& 255, (n >>> 32) &&& 255,
   (n >>> 24) &&& 255, (n >>> 16) &&& 255, (n >>> 8) &&& 255, n &&& 255]

/-- SHA-256 padding: append the 0x80 marker, zeros up to 56 mod 64, and the
bit length as 8 big-endian bytes. -/
def padMessage (msg : List Nat) : List Nat :=
  msg ++ 128 :: List.replicate ((119 - msg.length % 64) % 64) 0 ++ be64 (8 * msg.length)

/-- Group bytes into big-endian 32-bit words, four bytes per word. -/
def bytesToWords : List Nat → List Nat
  | a :: b :: c :: d :: rest => (a * 16777216 + b * 65536 + c * 256 + d) :: bytesToWords rest
  | _ => []

/-- Extend the 16-word message schedule by `k` further words. -/
def extendSchedule : Nat → List Nat → List Nat
  | 0, w => w
  | k + 1, w =>
    let i := w.length
    let wn := w32 (smallSigma1 (w.getD (i - 2) 0) + w.getD (i - 7) 0 +
                   smallSigma0 (w.getD (i - 15) 0) + w.getD (i - 16) 0)
    extendSchedule k (w ++ [wn])

/-- One SHA-256 compression round on the eight working registers. -/
def roundStep (s : List Nat) (kw : Nat × Nat) : List Nat :=
  match s with
  | [a, b, c, d, e, f, g, h] =>
    let t1 := w32 (h + bigSigma1 e + chooseF e f g + kw.1 + kw.2)
    let t2 := w32 (bigSigma0 a + majF a b c)
    [w32 (t1 + t2), a, b, c, w32 (d + t1), e, f, g]
  | s => s

/-- Process one 16-word block against the running hash state. -/
def processBlock (h : List Nat) (block : List Nat) : List Nat :=
  let w := extendSchedule 48 block
  let s := (K256.zip w).foldl roundStep h
  (h.zip s).map (fun p => w32 (p.1 + p.2))

/-- Process the padded message, sixteen 32-bit words at a time. -/
def processWords (h : List Nat) : List Nat → List Nat
  | w0 :: w1 :: w2 :: w3 :: w4 :: w5 :: w6 :: w7 :: w8 :: w9 :: w10 :: w11 :: w12 :: w13 :: w14 :: w15 :: rest =>
    processWords (processBlock h [w0, w1, w2, w3, w4, w5, w6, w7, w8, w9, w10, w11, w12, w13, w14, w15]) rest
  | _ => h

/-- SHA-256 of a byte sequence, as the 32 raw digest bytes. -/
def sha256 (msg : List Nat) : List Nat :=
  (processWords sha256InitHash (bytesToWords (padMessage msg))).flatMap be32

/-- ASCII code of the lowercase hex digit for `n < 16`. -/
def hexDigitByte (n : Nat) : Nat := if n < 10 then 48 + n else 87 + n

/-- Lowercase hexadecimal text encoding of a byte sequence, as bytes; this is
the `result_str().as_bytes()` step of the hashers. -/
def hexEncodeBytes (bytes : List Nat) : List Nat :=
  bytes.flatMap (fun b => [hexDigitByte (b / 16), hexDigitByte (b % 16)])

/-- Embedding of `struct Node`: owned optional children and a byte-vector
hash (`left_node`, `right_node`, `hash` fields of src/src/lib.rs). -/
inductive Node where
  | mk (left_node right_node : Option Node) (hash : List Nat)

/-- Accessor for the `hash` field (also the method `Node::hash`). -/
def Node.hash : Node → List Nat
  | .mk _ _ h => h

/-- Accessor for the `left_node` field. -/
def Node.left_node : Node → Option Node
  | .mk l _ _ => l

/-- Accessor for the `right_node` field. -/
def Node.right_node : Node → Option Node
  | .mk _ r _ => r

/-- Embedding of `Node::new(hash, leftNode, rightNode)`. -/
def Node.new (hash : List Nat) (leftNode rightNode : Option Node) : Node :=
  Node.mk leftNode rightNode hash

/-- Embedding of the method `Node::left_node()`: it dereferences the left
child's own `left_node` field with `unwrap`. Outer `none` models the panic
of that `unwrap`; `some v` models a normal return of `v`. -/
def Node.left_node_fn (n : Node) : Option (Option Node) :=
  match n.left_node with
  | some node =>
    match node.left_node with
    | some g => some (some g)
    | none => none
  | none => some none

/-- Embedding of the method `Node::right_node()`, symmetric to
`Node::left_node()` on the right children. -/
def Node.right_node_fn (n : Node) : Option (Option Node) :=
  match n.right_node with
  | some node =>
    match node.right_node with
    | some g => some (some g)
    | none => none
  | none => some none

/-- Embedding of `Node::depth`: one plus the maximum of the children's
depths, absent children counting as zero. -/
def Node.depth : Node → Nat
  | .mk l r _ =>
    let ld := match l with | none => 0 | some n => Node.depth n
    let rd := match r with | none => 0 | some n => Node.depth n
    Nat.max ld rd + 1

/-- Embedding of `struct MerkleTree`: an optional root node. The accessor
`MerkleTree.root_node` also embeds the method `MerkleTree::root_node()`. -/
structure MerkleTree where
  root_node : Option Node

/-- Embedding of `MerkleTree::hasher_leaf`: SHA-256 of the record's raw
bytes, hex-text encoded. -/
def hasher_leaf (data : List Nat) : List Nat := hexEncodeBytes (sha256 data)

/-- Embedding of `MerkleTree::hasher_nodes`: SHA-256 of the two inputs
concatenated (two successive `input` calls), hex-text encoded. -/
def hasher_nodes (left_data right_data : List Nat) : List Nat :=
  hexEncodeBytes (sha256 (left_data ++ right_data))

/-- Embedding of `MerkleTree::build_leaves`: one childless node per record,
in input order. Records are modelled as their byte sequences
(`data[i].as_bytes()`). -/
def build_leaves (data : List (List Nat)) : List Node :=
  data.map (fun d => Node.new (hasher_leaf d) none none)

/-- Embedding of `MerkleTree::build_upper_layer`: pair the layer
left-to-right; a final unpaired node becomes the left child of a parent
with no right child whose hash duplicates the lone node's hash. -/
def build_upper_layer : List Node → List Node
  | [] => []
  | [x] => [Node.new (hasher_nodes x.hash x.hash) (some x) none]
  | x :: y :: rest =>
    Node.new (hasher_nodes x.hash y.hash) (some x) (some y) :: build_upper_layer rest

/-- Embedding of `MerkleTree::build_root`: a parent of the two given nodes
with the hash of their concatenated hashes. -/
def build_root (leftNode rightNode : Node) : Node :=
  Node.mk (some leftNode) (some rightNode) (hasher_nodes leftNode.hash rightNode.hash)

/-- The `while size > 2` loop of `MerkleTree::build_tree`, with explicit
fuel. The `let upper_layer` binding inside the Rust loop body goes out of
scope at the end of each iteration, so every iteration reduces the same
outer `upper_layer`; the embedding reproduces exactly that. `none` means
the fuel ran out with the loop still running. -/
def buildLoop (upper : List Node) : Nat → List Node → Nat → Option (List Node)
  | 0, acc, size => if 2 < size then none else some acc
  | fuel + 1, acc, size =>
    if 2 < size then
      buildLoop upper fuel (acc ++ build_upper_layer upper) (build_upper_layer upper).length
    else some acc

/-- Embedding of `MerkleTree::build_tree`. The accumulator `acc` models the
`leaves` vector after `extend`; the final root is assembled from the last
two accumulated nodes (`leaves[len-2]`, `leaves[len-1]`), and `none` models
a panic of that indexing (empty input) or a never-ending loop (no fuel
suffices). -/
def build_tree (fuel : Nat) (data : List (List Nat)) : Option MerkleTree :=
  let leaves := build_leaves data
  let upper := build_upper_layer leaves
  let size := upper.length
  let acc := leaves ++ upper
  if size = 1 then
    match acc.reverse with
    | u :: _ => some ⟨some (Node.new u.hash u.left_node u.right_node)⟩
    | [] => none
  else
    match buildLoop upper fuel acc size with
    | none => none
    | some acc2 =>
      match acc2.reverse with
      | last :: prev :: _ => some ⟨some (build_root prev last)⟩
      | _ => none

/-- Embedding of `MerkleTree::depth`: `root_node().unwrap().depth()`; the
`unwrap` panic on a rootless tree is modelled by `none`. -/
def MerkleTree.depth (t : MerkleTree) : Option Nat := t.root_node.map Node.depth

/-- Worklist loop of `MerkleTree::count_leaves`: pop from the front, count
nodes with both children absent, push existing children to the back (right
first, then left). -/
def countLeavesAux : List Node → Nat
  | [] => 0
  | .mk left right _ :: rest =>
    match left, right with
    | none, none => 1 + countLeavesAux rest
    | some l, some r => countLeavesAux (rest ++ [r, l])
    | some l, none => countLeavesAux (rest ++ [l])
    | none, some r => countLeavesAux (rest ++ [r])
termination_by wl => (wl.map sizeOf).sum
decreasing_by all_goals first
  | (simp_all [List.map_append]; omega)
  | simp_all [List.map_append]

/-- Embedding of `MerkleTree::count_leaves`: the deque starts with the root
when one exists, otherwise the loop body never runs and the count is 0. -/
def MerkleTree.count_leaves (t : MerkleTree) : Nat :=
  match t.root_node with
  | some root => countLeavesAux [root]
  | none => 0

/-- Worklist loop of `MerkleTree::includes`: the deque holds `Option`
values and the popped element is `unwrap`ped, so a popped `none` is a
panic (modelled by result `none`). On a mismatch the existing children are
pushed to the front, right first then left. -/
def includesAux (data : List Nat) : List (Option Node) → Option Bool
  | [] => some false
  | none :: _ => none
  | some (.mk l r h) :: rest =>
    if h = data then some true
    else
      includesAux data ((match l with | some ln => (fun tl => some ln :: tl) | none => id)
        ((match r with | some rn => (fun tl => some rn :: tl) | none => id) rest))
termination_by wl => (wl.map sizeOf).sum
decreasing_by all_goals cases r <;> cases l <;> simp_all [List.map_append] <;> omega

/-- Embedding of `MerkleTree::includes`: the (possibly absent) root is
pushed onto the deque unconditionally before the loop. -/
def MerkleTree.includes (t : MerkleTree) (data : List Nat) : Option Bool :=
  includesAux data [t.root_node]

/-- All nodes of the subtree rooted at a node, used to state the spec's
whole-tree properties (inclusion, digest invariants). -/
def Node.allNodes : Node → List Node
  | .mk l r h =>
    Node.mk l r h ::
      ((match l with | some a => a.allNodes | none => []) ++
       (match r with | some b => b.allNodes | none => []))

/-- Number of childless (leaf) nodes in the subtree rooted at a node;
children are counted exactly as `count_leaves` traverses them. -/
def Node.nLeaves : Node → Nat
  | .mk l r _ =>
    match l, r with
    | none, none => 1
    | some a, some b => a.nLeaves + b.nLeaves
    | some a, none => a.nLeaves
    | none, some b => b.nLeaves

/-- Depth as the specification words it (section 4.5): one plus the
maximum of the children's depths, absent children counting as zero. -/
def depthSpec : Node → Nat
  | .mk l r _ =>
    1 + Nat.max (match l with | none => 0 | some a => depthSpec a)
                (match r with | none => 0 | some b => depthSpec b)

/-- The four-record input of the repository's canonical test
(tests/merkle_tree_test.rs): the byte sequences of "Hello", "World",
"From", "Rust". -/
def canonicalData : List (List Nat) :=
  [[72, 101, 108, 108, 111], [87, 111, 114, 108, 100], [70, 114, 111, 109], [82, 117, 115, 116]]

/-- Expected canonical root digest, as hex-text bytes: the byte sequence of
"725367a8cee028cf3360c19d20c175733191562b01e60d093e81d8570e865f81". -/
def canonicalRootHex : List Nat :=
  [55, 50, 53, 51, 54, 55, 97, 56, 99, 101, 101, 48, 50, 56, 99, 102, 51, 51, 54, 48, 99, 49, 57,
   100, 50, 48, 99, 49, 55, 53, 55, 51, 51, 49, 57, 49, 53, 54, 50, 98, 48, 49, 101, 54, 48, 100,
   48, 57, 51, 101, 56, 49, 100, 56, 53, 55, 48, 101, 56, 54, 53, 102, 56, 49]

/-- Internal-node digest queried by the canonical test, as hex-text bytes:
the byte sequence of
"d9aa89fdd15ad5c41d9c128feffe9e07dc828b83f85296f7f42bda506821300e". -/
def canonicalInnerHex : List Nat :=
  [100, 57, 97, 97, 56, 57, 102, 100, 100, 49, 53, 97, 100, 53, 99, 52, 49, 100, 57, 99, 49, 50,
   56, 102, 101, 102, 102, 101, 57, 101, 48, 55, 100, 99, 56, 50, 56, 98, 56, 51, 102, 56, 53, 50,
   57, 54, 102, 55, 102, 52, 50, 98, 100, 97, 53, 48, 54, 56, 50, 49, 51, 48, 48, 101]

/-- Per-node digest condition exactly as claim C6 words it: a leaf's digest
is the chained-hash of one of the source records, and every non-leaf
node's digest is the chained-hash of its left child's digest followed by
its right child's digest (which presupposes both children). -/
def goodNodeClaim (leafHashes : List (List Nat)) (n : Node) : Bool :=
  match n.left_node, n.right_node with
  | none, none => decide (n.hash ∈ leafHashes)
  | some l, some r => decide (n.hash = hasher_nodes l.hash r.hash)
  | _, _ => false

/-- Per-node digest condition as the code realises it: like
`goodNodeClaim`, except that a node with only a left child carries the
chained-hash of the left child's digest duplicated (section 4.2's odd-layer
rule). -/
def goodNodeAmended (leafHashes : List (List Nat)) (n : Node) : Bool :=
  match n.left_node, n.right_node with
  | none, none => decide (n.hash ∈ leafHashes)
  | some l, some r => decide (n.hash = hasher_nodes l.hash r.hash)
  | some l, none => decide (n.hash = hasher_nodes l.hash l.hash)
  | none, some _ => false

/-- Whether every node of the tree built from `data` satisfies claim C6's
per-node digest condition; vacuously true when construction fails. -/
def treeAllGoodClaim (fuel : Nat) (data : List (List Nat)) : Bool :=
  match build_tree fuel data with
  | some ⟨some root⟩ => root.allNodes.all (goodNodeClaim (data.map hasher_leaf))
  | _ => true

/-- The tree built from the canonical four-record input, with every digest
written out as literal hex-text bytes. -/
def canonicalTree : Node :=
  Node.mk (some (Node.mk (some (Node.mk none none [49, 56, 53, 102, 56, 100, 98, 51, 50, 50, 55, 49, 102, 101, 50, 53, 102, 53, 54, 49, 97, 54, 102, 99, 57, 51, 56, 98, 50, 101, 50, 54, 52, 51, 48, 54, 101, 99, 51, 48, 52, 101, 100, 97, 53, 49, 56, 48, 48, 55, 100, 49, 55, 54, 52, 56, 50, 54, 51, 56, 49, 57, 54, 57])) (some (Node.mk none none [55, 56, 97, 101, 54, 52, 55, 100, 99, 53, 53, 52, 52, 100, 50, 50, 55, 49, 51, 48, 97, 48, 54, 56, 50, 97, 53, 49, 101, 51, 48, 98, 99, 55, 55, 55, 55, 102, 98, 98, 54, 100, 56, 97, 56, 102, 49, 55, 48, 48, 55, 52, 54, 51, 97, 51, 101, 99, 100, 49, 100, 53, 50, 52])) [55, 98, 101, 99, 102, 53, 50, 51, 53, 49, 99, 101, 50, 100, 54, 100, 56, 57, 99, 49, 50, 55, 102, 49, 52, 99, 50, 54, 98, 101, 99, 97, 50, 97, 99, 98, 54, 53, 49, 100, 100, 57, 57, 57, 54, 52, 100, 99, 53, 101, 50, 97, 54, 57, 102, 55, 49, 99, 99, 98, 98, 54, 101, 52])) (some (Node.mk (some (Node.mk none none [50, 49, 56, 49, 57, 55, 54, 57, 51, 52, 50, 52, 101, 48, 49, 53, 52, 99, 101, 102, 99, 48, 97, 102, 51, 49, 97, 101, 100, 57, 54, 99, 48, 56, 52, 98, 57, 56, 55, 101, 48, 56, 49, 51, 54, 101, 57, 49, 100, 53, 53, 50, 56, 100, 100, 98, 98, 53, 52, 54, 49, 101, 50, 52])) (some (Node.mk none none [100, 57, 97, 97, 56, 57, 102, 100, 100, 49, 53, 97, 100, 53, 99, 52, 49, 100, 57, 99, 49, 50, 56, 102, 101, 102, 102, 101, 57, 101, 48, 55, 100, 99, 56, 50, 56, 98, 56, 51, 102, 56, 53, 50, 57, 54, 102, 55, 102, 52, 50, 98, 100, 97, 53, 48, 54, 56, 50, 49, 51, 48, 48, 101])) [102, 99, 98, 100, 57, 55, 53, 55, 97, 51, 51, 49, 52, 54, 101, 101, 51, 100, 100, 54, 98, 102, 102, 97, 98, 48, 55, 97, 54, 100, 48, 51, 98, 56, 100, 50, 98, 48, 52, 48, 99, 99, 98, 49, 101, 102, 51, 54, 54, 54, 56, 53, 100, 48, 57, 53, 98, 54, 54, 99, 52, 55, 48, 53])) [55, 50, 53, 51, 54, 55, 97, 56, 99, 101, 101, 48, 50, 56, 99, 102, 51, 51, 54, 48, 99, 49, 57, 100, 50, 48, 99, 49, 55, 53, 55, 51, 51, 49, 57, 49, 53, 54, 50, 98, 48, 49, 101, 54, 48, 100, 48, 57, 51, 101, 56, 49, 100, 56, 53, 55, 48, 101, 56, 54, 53, 102, 56, 49]

/-- Each reduction produces half the nodes, rounded up. -/
theorem build_upper_layer_length (l : List Node) :
    (build_upper_layer l).length = (l.length + 1) / 2 := by
  induction l using build_upper_layer.induct with
  | case1 => simp [build_upper_layer]
  | case2 x => simp [build_upper_layer]
  | case3 x y rest ih => simp [build_upper_layer, ih]; omega

/-- One leaf per record. -/
theorem build_leaves_length (data : List (List Nat)) :
    (build_leaves data).length = data.length := by
  simp [build_leaves]

/-- The while loop exits at once when the size is already at most two. -/
theorem buildLoop_small (upper : List Node) (fuel : Nat) (acc : List Node) (size : Nat)
    (h : size ≤ 2) : buildLoop upper fuel acc size = some acc := by
  cases fuel <;> simp [buildLoop, Nat.not_lt.2 h]

/-- When reducing the captured layer still leaves more than two nodes, the
loop never exits, whatever the fuel: each iteration recomputes the same
reduction of the same layer. -/
theorem buildLoop_none (upper : List Node) (h2 : 2 < (build_upper_layer upper).length) :
    ∀ (fuel : Nat) (acc : List Node) (size : Nat), 2 < size →
      buildLoop upper fuel acc size = none := by
  intro fuel
  induction fuel with
  | zero => intro acc size hs; simp [buildLoop, hs]
  | succ k ih => intro acc size hs; simp [buildLoop, hs]; exact ih _ _ h2

/-- Characterization of a loop run that returns: either the loop never ran,
or it ran exactly once, appending the reduction of the captured layer. -/
theorem buildLoop_some (upper : List Node) :
    ∀ (fuel : Nat) (acc : List Node) (size : Nat) (acc2 : List Node),
      buildLoop upper fuel acc size = some acc2 →
      (size ≤ 2 ∧ acc2 = acc) ∨
      (2 < size ∧ (build_upper_layer upper).length ≤ 2 ∧
        acc2 = acc ++ build_upper_layer upper) := by
  intro fuel
  induction fuel with
  | zero =>
    intro acc size acc2 h
    by_cases hs : 2 < size
    · simp [buildLoop, hs] at h
    · simp [buildLoop, hs] at h
      exact Or.inl ⟨Nat.not_lt.1 hs, h.symm⟩
  | succ k ih =>
    intro acc size acc2 h
    by_cases hs : 2 < size
    · simp only [buildLoop, if_pos hs] at h
      rcases ih _ _ _ h with ⟨hle, rfl⟩ | ⟨hgt, _, _⟩
      · exact Or.inr ⟨hs, hle, rfl⟩
      · exact absurd hgt (by omega)
    · simp [buildLoop, hs] at h
      exact Or.inl ⟨Nat.not_lt.1 hs, h.symm⟩

/-- The worklist loop of `count_leaves` counts the childless nodes below
every node of the worklist. -/
theorem countLeavesAux_eq (wl : List Node) :
    countLeavesAux wl = (wl.map Node.nLeaves).sum := by
  induction wl using countLeavesAux.induct with
  | case1 => simp [countLeavesAux]
  | case2 rest h ih =>
    rw [countLeavesAux]
    simp [ih, Node.nLeaves]
  | case3 rest l r h ih =>
    rw [countLeavesAux]
    simp [ih, Node.nLeaves]
    omega
  | case4 rest l h ih =>
    rw [countLeavesAux]
    simp [ih, Node.nLeaves]
    omega
  | case5 rest r h ih =>
    rw [countLeavesAux]
    simp [ih, Node.nLeaves]
    omega

/-- Reduction preserves the total number of childless descendants. -/
theorem build_upper_layer_nLeaves (l : List Node) :
    ((build_upper_layer l).map Node.nLeaves).sum = (l.map Node.nLeaves).sum := by
  induction l using build_upper_layer.induct with
  | case1 => simp [build_upper_layer]
  | case2 x => simp [build_upper_layer, Node.new, Node.nLeaves]
  | case3 x y rest ih =>
    simp [build_upper_layer, Node.new, Node.nLeaves, ih]
    omega

/-- The leaf layer has one childless node per record. -/
theorem build_leaves_nLeaves (data : List (List Nat)) :
    ((build_leaves data).map Node.nLeaves).sum = data.length := by
  induction data with
  | nil => simp [build_leaves]
  | cons d rest ih =>
    simp only [build_leaves, List.map_cons, List.map_map, List.sum_cons, List.length_cons] at *
    rw [ih]
    simp [Node.new, Node.nLeaves]
    omega

/-- Rebuilding a node from its own fields gives the node back. -/
theorem Node.new_eta (u : Node) : Node.new u.hash u.left_node u.right_node = u := by
  cases u; rfl

/-- Reversal of a list ending in two known elements. -/
theorem reverse_append_two (l : List Node) (a b : Node) :
    (l ++ [a, b]).reverse = b :: a :: l.reverse := by
  simp

/-- When the first reduction of the leaf layer is a single node, that node
becomes the root (the `size == 1` branch of `build_tree`), for any fuel. -/
theorem build_tree_single_upper {data : List (List Nat)} {u : Node}
    (hu : build_upper_layer (build_leaves data) = [u]) (fuel : Nat) :
    build_tree fuel data = some ⟨some u⟩ := by
  simp only [build_tree, hu, List.length_singleton, if_pos, List.reverse_append,
    List.reverse_cons, List.reverse_nil, List.nil_append, List.cons_append, Node.new_eta]

/-- A reduction is empty only for the empty layer. -/
theorem build_upper_layer_eq_nil {l : List Node} (h : build_upper_layer l = []) : l = [] := by
  have := build_upper_layer_length l
  rw [h] at this
  cases l with
  | nil => rfl
  | cons x xs => simp at this; omega

/-- Every successfully built tree is rooted either at the lone node of the
first reduction of the leaf layer, or at a `build_root` of the two nodes of
a complete two-node layer (the first or the second reduction). -/
theorem build_tree_some {fuel : Nat} {data : List (List Nat)} {t : MerkleTree}
    (h : build_tree fuel data = some t) :
    (∃ u, build_upper_layer (build_leaves data) = [u] ∧ t = ⟨some u⟩) ∨
    (∃ a b, (build_upper_layer (build_leaves data) = [a, b] ∨
             build_upper_layer (build_upper_layer (build_leaves data)) = [a, b]) ∧
      t = ⟨some (build_root a b)⟩) := by
  simp only [build_tree] at h
  by_cases h1 : (build_upper_layer (build_leaves data)).length = 1
  · rw [if_pos h1] at h
    obtain ⟨u, hu⟩ := List.length_eq_one.1 h1
    rw [hu] at h
    simp only [List.reverse_append, List.reverse_cons, List.reverse_nil, List.nil_append,
      List.cons_append] at h
    simp only [Option.some.injEq] at h
    exact Or.inl ⟨u, hu, by rw [← h, Node.new_eta]⟩
  · rw [if_neg h1] at h
    cases hb : buildLoop (build_upper_layer (build_leaves data)) fuel
        (build_leaves data ++ build_upper_layer (build_leaves data))
        (build_upper_layer (build_leaves data)).length with
    | none => rw [hb] at h; simp at h
    | some acc2 =>
      rw [hb] at h
      rcases buildLoop_some _ _ _ _ _ hb with ⟨hle, rfl⟩ | ⟨hgt, hVle, rfl⟩
      · have h02 : (build_upper_layer (build_leaves data)).length = 0 ∨
            (build_upper_layer (build_leaves data)).length = 2 := by omega
        rcases h02 with hlen | hlen
        · have hnil : build_upper_layer (build_leaves data) = [] := List.length_eq_zero.1 hlen
          have hlv : build_leaves data = [] := build_upper_layer_eq_nil hnil
          rw [hnil, hlv] at h
          simp at h
        · obtain ⟨a, b, hab⟩ := List.length_eq_two.1 hlen
          rw [hab] at h
          simp only [reverse_append_two, Option.some.injEq] at h
          exact Or.inr ⟨a, b, Or.inl hab, h.symm⟩
      · have hV2 : (build_upper_layer (build_upper_layer (build_leaves data))).length = 2 := by
          have := build_upper_layer_length (build_upper_layer (build_leaves data))
          omega
        obtain ⟨a, b, hab⟩ := List.length_eq_two.1 hV2
        rw [hab] at h
        simp only [reverse_append_two, Option.some.injEq] at h
        exact Or.inr ⟨a, b, Or.inr hab, h.symm⟩

/-- Field reduction for `hash`. -/
@[simp] theorem Node.hash_mk (l r : Option Node) (h : List Nat) :
    (Node.mk l r h).hash = h := rfl

/-- Field reduction for `left_node`. -/
@[simp] theorem Node.left_node_mk (l r : Option Node) (h : List Nat) :
    (Node.mk l r h).left_node = l := rfl

/-- Field reduction for `right_node`. -/
@[simp] theorem Node.right_node_mk (l r : Option Node) (h : List Nat) :
    (Node.mk l r h).right_node = r := rfl

/-- Unfolding of `Node.new` into the constructor. -/
@[simp] theorem Node.new_def (h : List Nat) (l r : Option Node) :
    Node.new h l r = Node.mk l r h := rfl

/-- A two-child parent node is hereditarily good when its own equation holds
and both children are hereditarily good. -/
theorem allNodes_all_pair (g : Node → Bool) (x y : Node) (hs : List Nat)
    (hg : g (Node.mk (some x) (some y) hs) = true)
    (hx : x.allNodes.all g = true) (hy : y.allNodes.all g = true) :
    (Node.mk (some x) (some y) hs).allNodes.all g = true := by
  rw [Node.allNodes]
  simp only [List.all_cons, List.all_append, hg, hx, hy, Bool.and_self, Bool.true_and]

/-- A left-only parent node is hereditarily good when its own equation holds
and its child is hereditarily good. -/
theorem allNodes_all_lone (g : Node → Bool) (x : Node) (hs : List Nat)
    (hg : g (Node.mk (some x) none hs) = true)
    (hx : x.allNodes.all g = true) :
    (Node.mk (some x) none hs).allNodes.all g = true := by
  rw [Node.allNodes]
  simp only [List.all_cons, List.all_append, hg, hx, List.all_nil, Bool.and_self, Bool.true_and]

/-- Every node of the leaf layer is hereditarily good for the amended
digest condition. -/
theorem build_leaves_allGood (data : List (List Nat)) :
    ∀ n ∈ build_leaves data, n.allNodes.all (goodNodeAmended (data.map hasher_leaf)) = true := by
  intro n hn
  simp only [build_leaves, List.mem_map] at hn
  obtain ⟨d, hd, rfl⟩ := hn
  rw [Node.new_def, Node.allNodes]
  simp only [List.all_cons, List.all_append, List.all_nil, Bool.and_true, Bool.true_and]
  simp [goodNodeAmended, List.mem_map]
  exact ⟨d, hd, rfl⟩

/-- Reduction preserves hereditary goodness of a layer for the amended
digest condition. -/
theorem build_upper_layer_allGood (lh : List (List Nat)) (l : List Node)
    (hl : ∀ n ∈ l, n.allNodes.all (goodNodeAmended lh) = true) :
    ∀ n ∈ build_upper_layer l, n.allNodes.all (goodNodeAmended lh) = true := by
  induction l using build_upper_layer.induct with
  | case1 => intro n hn; simp [build_upper_layer] at hn
  | case2 x =>
    intro n hn
    simp only [build_upper_layer, Node.new_def, List.mem_singleton] at hn
    subst hn
    exact allNodes_all_lone _ x _ (by simp [goodNodeAmended]) (hl x (by simp))
  | case3 x y rest ih =>
    intro n hn
    simp only [build_upper_layer, Node.new_def, List.mem_cons] at hn
    rcases hn with rfl | hn
    · exact allNodes_all_pair _ x y _ (by simp [goodNodeAmended])
        (hl x (by simp)) (hl y (by simp))
    · exact ih (fun m hm => hl m (by simp [hm])) n hn

/-- Size of a byte list is positive (used for worklist measures). -/
theorem list_nat_sizeOf_pos (xs : List Nat) : 0 < sizeOf xs := by
  cases xs <;> simp

/-- Unfolding equation of `includesAux`: head node with two children. -/
theorem includesAux_cons_both (data : List Nat) (a b : Node) (hsh : List Nat)
    (rest : List (Option Node)) :
    includesAux data (some (Node.mk (some a) (some b) hsh) :: rest) =
      if hsh = data then some true else includesAux data (some a :: some b :: rest) := by
  rw [includesAux.eq_def]

/-- Unfolding equation of `includesAux`: head node with a left child only. -/
theorem includesAux_cons_left (data : List Nat) (a : Node) (hsh : List Nat)
    (rest : List (Option Node)) :
    includesAux data (some (Node.mk (some a) none hsh) :: rest) =
      if hsh = data then some true else includesAux data (some a :: rest) := by
  rw [includesAux.eq_def]
  rfl

/-- Unfolding equation of `includesAux`: head node with a right child only. -/
theorem includesAux_cons_right (data : List Nat) (b : Node) (hsh : List Nat)
    (rest : List (Option Node)) :
    includesAux data (some (Node.mk none (some b) hsh) :: rest) =
      if hsh = data then some true else includesAux data (some b :: rest) := by
  rw [includesAux.eq_def]
  rfl

/-- Unfolding equation of `includesAux`: childless head node. -/
theorem includesAux_cons_leaf (data : List Nat) (hsh : List Nat)
    (rest : List (Option Node)) :
    includesAux data (some (Node.mk none none hsh) :: rest) =
      if hsh = data then some true else includesAux data rest := by
  rw [includesAux.eq_def]
  rfl

/-- The worklist loop of `includes` on a worklist of present nodes returns
whether some node below a worklist element carries the candidate hash. -/
theorem includesAux_map_some (cand : List Nat) :
    ∀ (N : Nat) (wl : List Node), (wl.map sizeOf).sum ≤ N →
      includesAux cand (wl.map some) =
        some (wl.any (fun n => n.allNodes.any (fun m => decide (m.hash = cand)))) := by
  intro N
  induction N with
  | zero =>
    intro wl h
    cases wl with
    | nil => simp [includesAux]
    | cons n rest =>
      exfalso
      cases n with
      | mk l r hsh => simp at h
  | succ N ih =>
    intro wl hle
    cases wl with
    | nil => simp [includesAux]
    | cons n rest =>
      obtain ⟨l, r, hsh⟩ := n
      rw [List.map_cons]
      have hsz : sizeOf (Node.mk l r hsh) + (rest.map sizeOf).sum ≤ N + 1 := by
        simpa using hle
      have hpos : 0 < sizeOf hsh := list_nat_sizeOf_pos hsh
      by_cases hh : hsh = cand
      · subst hh
        cases l <;> cases r <;>
          simp [includesAux_cons_both, includesAux_cons_left, includesAux_cons_right,
            includesAux_cons_leaf, Node.allNodes]
      · cases l with
        | none =>
          cases r with
          | none =>
            rw [includesAux_cons_leaf, if_neg hh, ih rest (by simp at hsz ⊢; omega)]
            simp [Node.allNodes, hh]
          | some b =>
            rw [includesAux_cons_right, if_neg hh, ← List.map_cons,
              ih (b :: rest) (by simp at hsz ⊢; omega)]
            simp [Node.allNodes, hh]
        | some a =>
          cases r with
          | none =>
            rw [includesAux_cons_left, if_neg hh, ← List.map_cons,
              ih (a :: rest) (by simp at hsz ⊢; omega)]
            simp [Node.allNodes, hh, Bool.or_assoc]
          | some b =>
            rw [includesAux_cons_both, if_neg hh, ← List.map_cons, ← List.map_cons,
              ih (a :: b :: rest) (by simp at hsz ⊢; omega)]
            simp [Node.allNodes, hh, Bool.or_assoc]

/-- Bounded-size form of the depth refinement, for strong induction. -/
theorem Node.depth_eq_depthSpec_bounded :
    ∀ (N : Nat) (n : Node), sizeOf n ≤ N → Node.depth n = depthSpec n := by
  intro N
  induction N with
  | zero =>
    intro n h
    exfalso
    obtain ⟨l, r, hs⟩ := n
    simp at h
  | succ N ih =>
    intro n h
    obtain ⟨l, r, hs⟩ := n
    have hpos : 0 < sizeOf hs := list_nat_sizeOf_pos hs
    rw [Node.depth.eq_def, depthSpec.eq_def]
    cases l with
    | none =>
      cases r with
      | none => simp
      | some b =>
        simp [ih b (by simp at h ⊢; omega)]
        omega
    | some a =>
      cases r with
      | none =>
        simp [ih a (by simp at h ⊢; omega)]
        omega
      | some b =>
        simp [ih a (by simp at h ⊢; omega), ih b (by simp at h ⊢; omega)]
        omega

/-- The code's depth recursion computes the specification's depth. -/
theorem Node.depth_eq_depthSpec (n : Node) : Node.depth n = depthSpec n :=
  Node.depth_eq_depthSpec_bounded (sizeOf n) n (Nat.le_refl _)

/-- Unfolding equation of `includesAux`: an absent head element is the
`unwrap` panic of the Rust loop. -/
theorem includesAux_none_head (data : List Nat) (rest : List (Option Node)) :
    includesAux data (none :: rest) = none := by
  rw [includesAux.eq_def]

/-- With at least nine records the first reduction has at least five nodes,
its reduction has at least three, and the loop can never exit. -/
theorem build_tree_none_of_nine (fuel : Nat) (data : List (List Nat))
    (h9 : 9 ≤ data.length) : build_tree fuel data = none := by
  have hu : (build_upper_layer (build_leaves data)).length = (data.length + 1) / 2 := by
    rw [build_upper_layer_length, build_leaves_length]
  have hv : 2 < (build_upper_layer (build_upper_layer (build_leaves data))).length := by
    rw [build_upper_layer_length]; omega
  simp only [build_tree]
  rw [if_neg (by omega)]
  rw [buildLoop_none _ hv fuel _ _ (by omega)]

/-- Claim C1: the claim states that construction terminates for every input
because each reduction is applied to the most recently produced layer. The
code instead reduces the first upper layer on every iteration (the loop's
inner rebinding of `upper_layer` dies with each iteration), so for nine
records the layer size stays three and no amount of fuel makes the loop
finish: construction diverges. -/
theorem build_tree_diverges_on_nine_records (fuel : Nat) :
    build_tree fuel (List.replicate 9 [97]) = none :=
  build_tree_none_of_nine fuel _ (by simp)

/-- Claim C2, counterexample: building from the empty sequence does not
complete normally; the root-assembly indexing `leaves[len - 2]` underflows
and the build panics (modelled as `none`), rather than returning a rootless
tree. -/
theorem build_tree_empty_input_returns_none : build_tree 1000 [] = none := by
  rfl

/-- Claim C2, amended: building from the empty input sequence fails (the
`leaves[leaves.len() - 2]` index panics) for every fuel, so no tree — 
rootless or otherwise — is ever produced. -/
theorem build_tree_empty_input_always_none (fuel : Nat) : build_tree fuel [] = none := by
  cases fuel <;> rfl

/-- Claim C9: on a rooted tree, `depth()` returns exactly the
specification's recursion `1 + max(depth left, depth right)` with absent
children contributing zero; on an empty tree it fails (maps to `none`, the
`unwrap` panic) rather than returning a value. -/
theorem depth_empty_fails_and_matches_spec (t : MerkleTree) :
    t.depth = t.root_node.map depthSpec := by
  obtain ⟨root⟩ := t
  cases root with
  | none => rfl
  | some r => simp [MerkleTree.depth, Node.depth_eq_depthSpec]

/-- Claim C10: when a node's left child exists and itself has a left child,
`Node::left_node()` returns that grandchild; when the left child exists but
has no left child, the method panics (`none`). `Node::right_node()` is
symmetric on right children. -/
theorem node_accessor_methods_return_grandchild (n c : Node) :
    (n.left_node = some c →
      (∀ g, c.left_node = some g → n.left_node_fn = some (some g)) ∧
      (c.left_node = none → n.left_node_fn = none)) ∧
    (n.right_node = some c →
      (∀ g, c.right_node = some g → n.right_node_fn = some (some g)) ∧
      (c.right_node = none → n.right_node_fn = none)) := by
  constructor
  · intro hl
    exact ⟨fun g hg => by simp [Node.left_node_fn, hl, hg],
           fun hg => by simp [Node.left_node_fn, hl, hg]⟩
  · intro hr
    exact ⟨fun g hg => by simp [Node.right_node_fn, hr, hg],
           fun hg => by simp [Node.right_node_fn, hr, hg]⟩

/-- Witness for claim C10 at concrete nodes: a grandchild is returned when
it exists, and the method panics when the left child is a leaf. -/
theorem node_accessor_methods_return_grandchild_witness :
    (Node.mk (some (Node.mk (some (Node.mk none none [1])) none [2])) none [3]).left_node_fn =
      some (some (Node.mk none none [1])) ∧
    (Node.mk (some (Node.mk none none [1])) none [2]).left_node_fn = none := by
  have h1 := node_accessor_methods_return_grandchild
    (Node.mk (some (Node.mk (some (Node.mk none none [1])) none [2])) none [3])
    (Node.mk (some (Node.mk none none [1])) none [2])
  have h2 := node_accessor_methods_return_grandchild
    (Node.mk (some (Node.mk none none [1])) none [2])
    (Node.mk none none [1])
  exact ⟨(h1.1 rfl).1 _ rfl, (h2.1 rfl).2 rfl⟩

/-- Claim C7: reducing a layer of odd length turns the final unpaired node
into the left child of a parent whose right child is absent and whose
digest is the chained-hash of the lone node's digest duplicated. -/
theorem build_upper_layer_odd_final (l : List Node) (x : Node) (h : l.length % 2 = 0) :
    build_upper_layer (l ++ [x]) =
      build_upper_layer l ++ [Node.mk (some x) none (hasher_nodes x.hash x.hash)] := by
  induction l using build_upper_layer.induct with
  | case1 => simp [build_upper_layer]
  | case2 y => simp at h
  | case3 a b rest ih =>
    have h2 : rest.length % 2 = 0 := by simp at h; omega
    simp only [List.cons_append, build_upper_layer]
    rw [List.append_eq, ih h2]

/-- Witness for claim C7 at a concrete one-node layer. -/
theorem build_upper_layer_odd_final_witness :
    build_upper_layer ([] ++ [Node.mk none none []]) =
      build_upper_layer [] ++ [Node.mk (some (Node.mk none none [])) none
        (hasher_nodes (Node.mk none none [] : Node).hash (Node.mk none none [] : Node).hash)] :=
  build_upper_layer_odd_final [] (Node.mk none none []) rfl

/-- Claim C5, counterexample: on an empty tree (no root) the claim says
`includes` returns false for every candidate, but the loop pops the pushed
`None` root and `unwrap`s it, panicking instead of returning false. -/
theorem includes_on_empty_tree_panics :
    MerkleTree.includes ⟨none⟩ [97] = none ∧
    MerkleTree.includes ⟨none⟩ [97] ≠ some false := by
  constructor
  · show includesAux [97] [none] = none
    exact includesAux_none_head [97] []
  · show includesAux [97] [none] ≠ some false
    rw [includesAux_none_head [97] []]
    simp

/-- Claim C5, amended: on a rooted tree, `includes(candidate)` returns true
iff some node anywhere in the tree has a digest byte-for-byte equal to the
candidate, and false otherwise; on an empty tree the query panics (`none`)
instead of returning false. -/
theorem includes_eq_digest_search (t : MerkleTree) (cand : List Nat) :
    t.includes cand =
      t.root_node.map (fun r => r.allNodes.any (fun m => decide (m.hash = cand))) := by
  obtain ⟨root⟩ := t
  cases root with
  | none =>
    show includesAux cand [none] = none
    exact includesAux_none_head cand []
  | some r =>
    have h := includesAux_map_some cand (([r].map sizeOf).sum) [r] (Nat.le_refl _)
    simp only [List.map_cons, List.map_nil] at h
    show includesAux cand [some r] = _
    rw [h]
    simp

/-- Claim C8, counterexample: for the empty input sequence the claim says
`leaf_count()` after building returns 0, but building panics and no tree is
produced at all. -/
theorem count_leaves_empty_input_no_tree :
    (build_tree 1000 []).map MerkleTree.count_leaves ≠ some 0 := by
  rw [show build_tree 1000 [] = none from rfl]
  simp

/-- Claim C8, amended: whenever construction returns a tree (which happens
exactly for 1 to 8 records), `count_leaves` equals the number of input
records; for zero records the build panics and for nine or more it never
terminates, so no count is observable. -/
theorem count_leaves_eq_record_count (fuel : Nat) (data : List (List Nat)) (t : MerkleTree)
    (h : build_tree fuel data = some t) : t.count_leaves = data.length := by
  have hleaves := build_leaves_nLeaves data
  have hup := build_upper_layer_nLeaves (build_leaves data)
  rcases build_tree_some h with ⟨u, hu, rfl⟩ | ⟨a, b, hab, rfl⟩
  · show countLeavesAux [u] = data.length
    rw [countLeavesAux_eq]
    rw [hu] at hup
    simp at hup ⊢
    omega
  · show countLeavesAux [build_root a b] = data.length
    rw [countLeavesAux_eq]
    have hroot : Node.nLeaves (build_root a b) = a.nLeaves + b.nLeaves := by
      simp [build_root, Node.nLeaves]
    rcases hab with hab | hab
    · rw [hab] at hup
      simp [hroot] at hup ⊢
      omega
    · have hup2 := build_upper_layer_nLeaves (build_upper_layer (build_leaves data))
      rw [hab] at hup2
      simp [hroot] at hup2 ⊢
      omega

/-- Witness for claim C8: the single-record tree has exactly one leaf. -/
theorem count_leaves_eq_record_count_witness :
    MerkleTree.count_leaves ⟨some (Node.mk (some (Node.mk none none (hasher_leaf [97]))) none
      (hasher_nodes (hasher_leaf [97]) (hasher_leaf [97])))⟩ = 1 :=
  count_leaves_eq_record_count 0 [[97]]
    ⟨some (Node.mk (some (Node.mk none none (hasher_leaf [97]))) none
      (hasher_nodes (hasher_leaf [97]) (hasher_leaf [97])))⟩
    (build_tree_single_upper (by rfl) 0)

/-- Claim C4, counterexample: for a single record the claim says the leaf
becomes the root directly and the tree has depth 1; the built tree actually
has depth 2 (the root is a parent above the leaf). -/
theorem single_record_tree_depth_not_one :
    (build_tree 0 [[97]]).map MerkleTree.depth ≠ some (some 1) := by
  decide

/-- Claim C4, amended: for one record the root is not the leaf but a parent
node whose left child is the single leaf and whose right child is absent,
with digest the chained-hash of the leaf digest duplicated, and the tree
has depth 2. -/
theorem single_record_tree_root_is_parent (r : List Nat) (fuel : Nat) :
    build_tree fuel [r] =
      some ⟨some (Node.mk (some (Node.mk none none (hasher_leaf r))) none
        (hasher_nodes (hasher_leaf r) (hasher_leaf r)))⟩ ∧
    (build_tree fuel [r]).map MerkleTree.depth = some (some 2) := by
  have hu : build_upper_layer (build_leaves [r]) =
      [Node.mk (some (Node.mk none none (hasher_leaf r))) none
        (hasher_nodes (hasher_leaf r) (hasher_leaf r))] := rfl
  refine ⟨build_tree_single_upper hu fuel, ?_⟩
  rw [build_tree_single_upper hu fuel]
  rfl

/-- Claim C6, counterexample: in the tree built from three one-byte records
there is a non-leaf node (the parent of the odd third leaf) whose right
child is absent, so its digest is not the chained-hash of a left digest
followed by a right digest as the claim requires of every non-leaf node. -/
theorem digest_claim_fails_on_three_records :
    treeAllGoodClaim 0 [[97], [98], [99]] = false := by
  decide

/-- Claim C6, amended: in every successfully built tree, every node with
two children carries the chained-hash of its left child's digest followed
by its right child's digest, every node with only a left child carries the
chained-hash of its left child's digest duplicated, and every leaf carries
the chained-hash of one of the source records. -/
theorem digest_invariant_amended (fuel : Nat) (data : List (List Nat)) (root : Node)
    (h : build_tree fuel data = some ⟨some root⟩) :
    root.allNodes.all (goodNodeAmended (data.map hasher_leaf)) = true := by
  have hg1 := build_upper_layer_allGood (data.map hasher_leaf) (build_leaves data)
    (build_leaves_allGood data)
  rcases build_tree_some h with ⟨u, hu, ht⟩ | ⟨a, b, hab, ht⟩
  · obtain rfl : root = u := by
      simpa [MerkleTree.mk.injEq] using ht
    exact hg1 root (by rw [hu]; simp)
  · obtain rfl : root = build_root a b := by
      simpa [MerkleTree.mk.injEq] using ht
    have hga : ∀ n ∈ [a, b], n.allNodes.all (goodNodeAmended (data.map hasher_leaf)) = true := by
      rcases hab with hab | hab
      · rw [← hab]; exact hg1
      · rw [← hab]; exact build_upper_layer_allGood _ _ hg1
    rw [show build_root a b = Node.mk (some a) (some b) (hasher_nodes a.hash b.hash) from rfl]
    exact allNodes_all_pair _ a b _ (by simp [goodNodeAmended])
      (hga a (by simp)) (hga b (by simp))

/-- Witness for claim C6: the single-record tree satisfies the amended
digest invariant. -/
theorem digest_invariant_amended_witness :
    (Node.mk (some (Node.mk none none (hasher_leaf [97]))) none
      (hasher_nodes (hasher_leaf [97]) (hasher_leaf [97]))).allNodes.all
      (goodNodeAmended ([[97]].map hasher_leaf)) = true :=
  digest_invariant_amended 0 [[97]]
    (Node.mk (some (Node.mk none none (hasher_leaf [97]))) none
      (hasher_nodes (hasher_leaf [97]) (hasher_leaf [97])))
    (build_tree_single_upper (by rfl) 0)

/-- Claim C3: building from the records "Hello", "World", "From", "Rust"
produces the canonical root digest
725367a8cee028cf3360c19d20c175733191562b01e60d093e81d8570e865f81 (as
hex-text bytes), and `includes` returns true for the digest
d9aa89fdd15ad5c41d9c128feffe9e07dc828b83f85296f7f42bda506821300e on that
tree. -/
theorem build_tree_canonical_vector :
    (build_tree 0 canonicalData).map
      (fun t => (t.root_node.map Node.hash, t.includes canonicalInnerHex)) =
      some (some canonicalRootHex, some true) := by
  rw [show build_tree 0 canonicalData = some ⟨some canonicalTree⟩ from rfl]
  have hinc : MerkleTree.includes ⟨some canonicalTree⟩ canonicalInnerHex = some true := by
    have h := includesAux_map_some canonicalInnerHex (([canonicalTree].map sizeOf).sum)
      [canonicalTree] (Nat.le_refl _)
    simp only [List.map_cons, List.map_nil] at h
    calc MerkleTree.includes ⟨some canonicalTree⟩ canonicalInnerHex
        = includesAux canonicalInnerHex [some canonicalTree] := rfl
      _ = some ([canonicalTree].any
            (fun n => n.allNodes.any (fun m => decide (m.hash = canonicalInnerHex)))) := h
      _ = some true := by decide
  simp only [Option.map_some']
  rw [hinc]
  rfl
